import Mathlib

/-!
Shallow embedding of `DataValidator`
(`mmm-platform/backend/services/data_validator.py`).

A dataset is modelled column-major: a list of named columns, each holding a
list of cell values.  A cell is either missing (`null`, pandas `NaN`/`NaT`),
a number, a string (carrying the result `pd.to_datetime` would give on it:
`some t` when it parses to the timestamp `t`, `none` when it raises), or an
already-parsed timestamp.  Timestamps and timedeltas are integers counting
nanoseconds, pandas' internal `int64[ns]` representation.
-/

namespace DataValidatorModel

inductive Value where
  | null : Value
  | num : Int → Value
  | str : String → Option Int → Value
  | timestamp : Int → Value
deriving DecidableEq

structure Column where
  name : String
  values : List Value
deriving DecidableEq

abbrev DataFrame := List Column

/-- `len(df)`: the number of rows (length of the columns; 0 for no columns). -/
def nRows (df : DataFrame) : Nat :=
  match df with
  | [] => 0
  | c :: _ => c.values.length

/-- `df.columns`. -/
def colNames (df : DataFrame) : List String :=
  df.map (fun c => c.name)

/-- `df[name]` (first column of that name). -/
def getCol (df : DataFrame) (name : String) : Option (List Value) :=
  (df.find? (fun c => c.name = name)).map (fun c => c.values)

/-- `df[name] = vals`: replace the values of the column(s) named `name`. -/
def setCol (df : DataFrame) (name : String) (vals : List Value) : DataFrame :=
  df.map (fun c => if c.name = name then ⟨c.name, vals⟩ else c)

/-- One nanosecond-count per day, as in pandas `Timedelta`. -/
def nsPerDay : Int := 86400000000000

/-- `pd.to_datetime` on a single cell: missing stays missing (`NaT`), a
number is taken as an epoch instant, a string parses iff pandas can parse
it, a timestamp is already parsed. `none` means the conversion raises. -/
def toDatetime : Value → Option Value
  | Value.null => some Value.null
  | Value.num n => some (Value.timestamp n)
  | Value.str _ (some t) => some (Value.timestamp t)
  | Value.str _ none => none
  | Value.timestamp t => some (Value.timestamp t)

/-- `pd.to_datetime` on a whole column: all cells convert or the call
raises. -/
def parseColVals : List Value → Option (List Value)
  | [] => some []
  | v :: rest =>
    match toDatetime v, parseColVals rest with
    | some w, some ws => some (w :: ws)
    | _, _ => none

/-- `DataValidator.DATE_COLUMN_NAMES`. -/
def DATE_COLUMN_NAMES : List String := ["date", "week", "week_start", "week_date"]

/-- `DataValidator.REVENUE_COLUMN_NAMES`. -/
def REVENUE_COLUMN_NAMES : List String := ["revenue", "sales", "total_revenue", "conversions"]

/-- `DataValidator.REQUIRED_MIN_ROWS`. -/
def REQUIRED_MIN_ROWS : Nat := 52

/-- `s.lower()`: per-character lowercasing. -/
def lowerStr (s : String) : String := String.mk (s.toList.map Char.toLower)

/-- The dict comprehension `{c.lower(): c for c in df.columns}` followed by
lookup of `name`: iterating the columns, a later column with the same
lowercased name overwrites an earlier one. -/
def lowerLookup (cols : List String) (name : String) : Option String :=
  cols.foldl (fun acc c => if lowerStr c = name then some c else acc) none

/-- `DataValidator._detect_column`: first candidate (in list order) present
case-insensitively among the column names wins. -/
def detectColumn (cols : List String) : List String → Option String
  | [] => none
  | n :: rest =>
    match lowerLookup cols n with
    | some c => some c
    | none => detectColumn cols rest

/-- `DataValidator._detect_date_column`: the same loop over
`DATE_COLUMN_NAMES`. -/
def detectDateColumn (cols : List String) : Option String :=
  detectColumn cols DATE_COLUMN_NAMES

/-- `self.date_column` as established by `validate` (detection only ever
depends on the column names). -/
def dateColOf (df : DataFrame) : Option String :=
  detectDateColumn (colNames df)

/-- Number of missing values in a column (`df.isnull().sum()` per column). -/
def countNulls (vals : List Value) : Nat :=
  vals.countP (fun v => v = Value.null)

/-- `series.duplicated().sum()`: cells equal to an earlier cell. -/
def countDups (seen : List Value) : List Value → Nat
  | [] => 0
  | v :: rest => (if v ∈ seen then 1 else 0) + countDups (v :: seen) rest

/-- `pat in s` for lists of characters (Python substring containment). -/
def containsSub (pat : List Char) : List Char → Bool
  | [] => pat.isEmpty
  | c :: rest => pat.isPrefixOf (c :: rest) || containsSub pat rest

/-- `"spend" in c.lower()`. -/
def containsSpend (c : String) : Bool :=
  containsSub "spend".toList (c.toList.map Char.toLower)

/-- `c.endswith("_S")` (case-sensitive). -/
def endsWithS (c : String) : Bool :=
  "_S".toList.isSuffixOf c.toList

/-- `[c for c in df.columns if "spend" in c.lower() or c.endswith("_S")]`. -/
def spendCols (cols : List String) : List String :=
  cols.filter (fun c => containsSpend c || endsWithS c)

/-- Python `s.replace(pat, repl)`: replace every non-overlapping occurrence,
scanning left to right (our patterns are never empty).  Structured with a
fuel argument (one unit per character scanned, each step consuming at
least one character) so that the recursion is structural. -/
def replaceAllAux (pat repl : List Char) : Nat → List Char → List Char
  | _, [] => []
  | 0, l => l
  | fuel + 1, c :: rest =>
    if pat ≠ [] ∧ pat.isPrefixOf (c :: rest) then
      repl ++ replaceAllAux pat repl fuel (rest.drop (pat.length - 1))
    else
      c :: replaceAllAux pat repl fuel rest

def replaceAll (pat repl l : List Char) : List Char :=
  replaceAllAux pat repl l.length l

/-- `c.replace("spend_", "").replace("_spend", "")`. -/
def stripSpendName (c : String) : String :=
  String.mk (replaceAll "_spend".toList [] (replaceAll "spend_".toList [] c.toList))

/-- `DataValidator.get_detected_channels` (a function of the column names). -/
def getDetectedChannels : List String → List String
  | [] => []
  | c :: rest =>
    if containsSpend c then stripSpendName c :: getDetectedChannels rest
    else if endsWithS c then c.dropRight 2 :: getDetectedChannels rest
    else getDetectedChannels rest

/-- Successive differences of a list (`series.diff().dropna()` on the
sorted timestamps, the `NaT` entries never contributing). -/
def diffsOf : List Int → List Int
  | a :: b :: rest => (b - a) :: diffsOf (b :: rest)
  | _ => []

/-- The non-missing timestamps of a parsed column, in order. -/
def timestampsOf (vals : List Value) : List Int :=
  vals.filterMap (fun v =>
    match v with
    | Value.timestamp t => some t
    | _ => none)

/-- `series.median()` on timedeltas: sort, take the middle element, or the
mean of the two middle elements for an even count. -/
def medianOf (l : List Int) : Int :=
  let s := List.insertionSort (fun a b => a ≤ b) l
  if l.length % 2 = 1 then s.getD (l.length / 2) 0
  else (s.getD (l.length / 2 - 1) 0 + s.getD (l.length / 2) 0) / 2

/-- `DataValidator._check_missing_weeks`, as the list of messages it
appends.  `col?` is `df[self.date_column]` when the column exists (`none`
models the `date_column not in df.columns` early return).  The swallowed
exception of the source (unparseable values) and the `NaT`-median case both
yield no message. -/
def checkMissingWeeks (col? : Option (List Value)) : List String :=
  match col? with
  | none => []
  | some vals =>
    match parseColVals vals with
    | none => []
    | some pv =>
      if pv.length < 2 then []
      else
        let ts := List.insertionSort (fun a b => a ≤ b) (timestampsOf pv)
        let dts := diffsOf ts
        match dts with
        | [] => []
        | _ :: _ =>
          let m := medianOf dts
          if m / nsPerDay < 5 ∨ m / nsPerDay > 9 then
            ["Data may not be weekly (median interval: " ++ toString (m / nsPerDay) ++ " days)"]
          else
            let gaps := dts.filter (fun d => 10 * nsPerDay < d)
            if gaps.length > 0 then
              ["Found " ++ toString gaps.length ++ " gaps in weekly data"]
            else []

/-- The mutable state of one `validate()` run: the dataset (mutated in
place by the date parse), the running `status` string and the accumulated
`messages`. -/
structure VState where
  df : DataFrame
  status : String
  messages : List String
deriving DecidableEq

/-- The minimum-rows check of `validate`. -/
def checkMinRows (s : VState) : VState :=
  if nRows s.df < REQUIRED_MIN_ROWS then
    { s with
      messages := s.messages ++
        ["Dataset has " ++ toString (nRows s.df) ++ " rows, minimum " ++
          toString REQUIRED_MIN_ROWS ++ " required"],
      status := "warning" }
  else s

/-- The date-column detection and parse step of `validate`: on success the
date column is overwritten, in place, with its parsed values. -/
def checkDateColumn (s : VState) : VState :=
  match dateColOf s.df with
  | none =>
    { s with
      messages := s.messages ++ ["No date column detected. Expected: date, week, week_start"],
      status := "error" }
  | some dc =>
    match parseColVals ((getCol s.df dc).getD []) with
    | none =>
      { s with
        messages := s.messages ++ ["Could not parse \x27" ++ dc ++ "\x27 as dates"],
        status := "error" }
    | some parsed => { s with df := setCol s.df dc parsed }

/-- The revenue-column check of `validate`. -/
def checkRevenue (s : VState) : VState :=
  match detectColumn (colNames s.df) REVENUE_COLUMN_NAMES with
  | none =>
    { s with
      messages := s.messages ++
        ["No revenue column detected. Expected: revenue, sales, conversions"],
      status := if s.status ≠ "error" then "warning" else s.status }
  | some _ => s

/-- The per-column missing-value messages (`cols_with_nulls` iteration of
the source), in column order. -/
def nullMsgsOf (df : DataFrame) : List String :=
  df.filterMap (fun c =>
    if 0 < countNulls c.values then
      some ("Column \x27" ++ c.name ++ "\x27 has " ++ toString (countNulls c.values) ++
        " missing values")
    else none)

/-- The missing-values check of `validate`: one message per column with at
least one missing value, in column order. -/
def checkNulls (s : VState) : VState :=
  if nullMsgsOf s.df = [] then s
  else
    { s with
      messages := s.messages ++ nullMsgsOf s.df,
      status := if s.status ≠ "error" then "warning" else s.status }

/-- The spend-columns check of `validate`. -/
def checkSpend (s : VState) : VState :=
  if spendCols (colNames s.df) = [] then
    { s with
      messages := s.messages ++
        ["No spend columns detected (expected columns containing \x27spend\x27 or ending with \x27_S\x27)"],
      status := if s.status ≠ "error" then "warning" else s.status }
  else s

/-- `df[date_column].duplicated().sum()`. -/
def dupCountOf (df : DataFrame) (dc : String) : Nat :=
  countDups [] ((getCol df dc).getD [])

/-- The duplicate-dates check of `validate`. -/
def checkDuplicates (s : VState) : VState :=
  match dateColOf s.df with
  | none => s
  | some dc =>
    if (colNames s.df).contains dc then
      if 0 < dupCountOf s.df dc then
        { s with
          messages := s.messages ++
            ["Found " ++ toString (dupCountOf s.df dc) ++ " duplicate dates"],
          status := if s.status ≠ "error" then "warning" else s.status }
      else s
    else s

/-- The missing-weeks step of `validate`: runs only when a date column was
identified and the running status is not `"error"`; it never changes the
status. -/
def checkMissingWeeksStep (s : VState) : VState :=
  match dateColOf s.df with
  | none => s
  | some dc =>
    if s.status ≠ "error" then
      { s with messages := s.messages ++ checkMissingWeeks (getCol s.df dc) }
    else s

/-- The final step of `validate`. -/
def finalize (s : VState) : VState :=
  if s.messages = [] then { s with messages := ["Data validation passed"] } else s

/-- `DataValidator.validate` on a fresh instance: returns the final state
(mutated dataset, `status`, `messages`). -/
def validate (df : DataFrame) : VState :=
  if nRows df = 0 then ⟨df, "error", ["Dataset is empty"]⟩
  else
    finalize (checkMissingWeeksStep (checkDuplicates (checkSpend (checkNulls
      (checkRevenue (checkDateColumn (checkMinRows ⟨df, "valid", []⟩)))))))

/-- Severity of a status string: `error > warning > valid`. -/
def sev : String → Nat
  | "error" => 2
  | "warning" => 1
  | _ => 0

/-- `max` of two statuses under the severity order. -/
def maxStatus (a b : String) : String :=
  if sev b ≤ sev a then a else b

/-- The successive values taken by the `status` variable during one
`validate()` run (initial value, then after each check that can assign
it; the missing-weeks step never assigns it but is included as the last
stage). -/
def statusTrace (df : DataFrame) : List String :=
  if nRows df = 0 then ["valid", "error"]
  else
    ["valid",
     (checkMinRows ⟨df, "valid", []⟩).status,
     (checkDateColumn (checkMinRows ⟨df, "valid", []⟩)).status,
     (checkRevenue (checkDateColumn (checkMinRows ⟨df, "valid", []⟩))).status,
     (checkNulls (checkRevenue (checkDateColumn (checkMinRows ⟨df, "valid", []⟩)))).status,
     (checkSpend (checkNulls (checkRevenue (checkDateColumn
       (checkMinRows ⟨df, "valid", []⟩))))).status,
     (checkDuplicates (checkSpend (checkNulls (checkRevenue (checkDateColumn
       (checkMinRows ⟨df, "valid", []⟩)))))).status,
     (checkMissingWeeksStep (checkDuplicates (checkSpend (checkNulls (checkRevenue
       (checkDateColumn (checkMinRows ⟨df, "valid", []⟩))))))).status]

/-- A structural defect: the dataset cannot be minimally processed (empty,
no date column, or unparseable date column). -/
def structuralDefect (df : DataFrame) : Prop :=
  nRows df = 0 ∨ dateColOf df = none ∨
    ∃ dc, dateColOf df = some dc ∧ parseColVals ((getCol df dc).getD []) = none

instance (df : DataFrame) : Decidable (structuralDefect df) := by
  unfold structuralDefect
  cases h : dateColOf df with
  | none => exact isTrue (Or.inr (Or.inl rfl))
  | some dc =>
    cases hp : parseColVals ((getCol df dc).getD []) with
    | none =>
      exact isTrue (Or.inr (Or.inr ⟨dc, rfl, hp⟩))
    | some pv =>
      cases Nat.decEq (nRows df) 0 with
      | isTrue he => exact isTrue (Or.inl he)
      | isFalse he =>
        refine isFalse ?_
        rintro (h1 | h2 | ⟨dc2, hdc2, hp2⟩)
        · exact he h1
        · cases h2
        · injection hdc2 with hdc2
          subst hdc2
          rw [hp2] at hp
          cases hp

/-! ### Lemmas on column lookup -/

lemma lowerLookup_none_aux (n : String) (cols : List String) (acc : Option String) :
    cols.foldl (fun a c => if lowerStr c = n then some c else a) acc = none
      ↔ acc = none ∧ ∀ c ∈ cols, lowerStr c ≠ n := by
  induction cols generalizing acc with
  | nil => simp
  | cons c rest ih =>
    simp only [List.foldl_cons]
    rw [ih]
    by_cases h : lowerStr c = n
    · rw [if_pos h]
      constructor
      · rintro ⟨hc, -⟩
        cases hc
      · rintro ⟨-, hall⟩
        exact absurd h (hall c (List.mem_cons_self c rest))
    · rw [if_neg h]
      constructor
      · rintro ⟨hacc, hall⟩
        refine ⟨hacc, fun x hx => ?_⟩
        rcases List.mem_cons.mp hx with rfl | hx
        · exact h
        · exact hall x hx
      · rintro ⟨hacc, hall⟩
        exact ⟨hacc, fun x hx => hall x (List.mem_cons_of_mem c hx)⟩

lemma lowerLookup_none_iff (cols : List String) (n : String) :
    lowerLookup cols n = none ↔ ∀ c ∈ cols, lowerStr c ≠ n := by
  unfold lowerLookup
  rw [lowerLookup_none_aux]
  simp

lemma lowerLookup_some_aux (n : String) (cols : List String) (acc : Option String)
    (c : String) :
    cols.foldl (fun a x => if lowerStr x = n then some x else a) acc = some c →
    (c ∈ cols ∧ lowerStr c = n) ∨ acc = some c := by
  induction cols generalizing acc with
  | nil => exact fun h => Or.inr h
  | cons x rest ih =>
    intro h
    simp only [List.foldl_cons] at h
    rcases ih _ h with ⟨hm, hl⟩ | hacc
    · exact Or.inl ⟨List.mem_cons_of_mem _ hm, hl⟩
    · by_cases hx : lowerStr x = n
      · rw [if_pos hx] at hacc
        injection hacc with hacc
        subst hacc
        exact Or.inl ⟨List.mem_cons_self x rest, hx⟩
      · rw [if_neg hx] at hacc
        exact Or.inr hacc

lemma lowerLookup_some (cols : List String) (n c : String)
    (h : lowerLookup cols n = some c) : c ∈ cols ∧ lowerStr c = n := by
  rcases lowerLookup_some_aux n cols none c h with h' | h'
  · exact h'
  · cases h'

lemma lowerLookup_isSome_of_mem (cols : List String) (n c : String)
    (hc : c ∈ cols) (hl : lowerStr c = n) : ∃ d, lowerLookup cols n = some d := by
  cases h : lowerLookup cols n with
  | some d => exact ⟨d, rfl⟩
  | none => exact absurd hl ((lowerLookup_none_iff cols n).mp h c hc)

lemma detectColumn_none_iff (cols cands : List String) :
    detectColumn cols cands = none ↔ ∀ n ∈ cands, ∀ c ∈ cols, lowerStr c ≠ n := by
  induction cands with
  | nil => simp [detectColumn]
  | cons n rest ih =>
    unfold detectColumn
    cases h : lowerLookup cols n with
    | some c =>
      simp only []
      constructor
      · intro hc
        cases hc
      · intro hall
        rcases lowerLookup_some cols n c h with ⟨hm, hl⟩
        exact absurd hl (hall n (List.mem_cons_self n rest) c hm)
    | none =>
      simp only []
      rw [ih]
      constructor
      · intro hall m hm c hc
        rcases List.mem_cons.mp hm with rfl | hm
        · exact (lowerLookup_none_iff cols m).mp h c hc
        · exact hall m hm c hc
      · intro hall m hm c hc
        exact hall m (List.mem_cons_of_mem n hm) c hc

lemma detectColumn_some (cols cands : List String) (c : String)
    (h : detectColumn cols cands = some c) : c ∈ cols ∧ ∃ n ∈ cands, lowerStr c = n := by
  induction cands with
  | nil => cases h
  | cons n rest ih =>
    unfold detectColumn at h
    cases hl : lowerLookup cols n with
    | some d =>
      rw [hl] at h
      injection h with h
      rcases lowerLookup_some cols n d hl with ⟨hm, hlo⟩
      exact ⟨h ▸ hm, n, List.mem_cons_self n rest, h ▸ hlo⟩
    | none =>
      rw [hl] at h
      rcases ih h with ⟨hm, m, hmm, hlo⟩
      exact ⟨hm, m, List.mem_cons_of_mem n hmm, hlo⟩

lemma detectColumn_first (cols cands : List String) (n : String)
    (h : cands.find? (fun m => cols.any (fun c => lowerStr c == m)) = some n) :
    ∃ c ∈ cols, detectColumn cols cands = some c ∧ lowerStr c = n := by
  induction cands with
  | nil => cases h
  | cons m rest ih =>
    rw [List.find?_cons] at h
    unfold detectColumn
    cases hm : cols.any (fun c => lowerStr c == m) with
    | true =>
      rw [hm] at h
      injection h with h
      subst h
      rcases List.any_eq_true.mp hm with ⟨c, hc, hcl⟩
      rcases lowerLookup_isSome_of_mem cols m c hc (beq_iff_eq.mp hcl) with ⟨d, hd⟩
      rcases lowerLookup_some cols m d hd with ⟨hdm, hdl⟩
      exact ⟨d, hdm, by rw [hd], hdl⟩
    | false =>
      rw [hm] at h
      rcases ih h with ⟨c, hc, hdet, hcl⟩
      cases hl : lowerLookup cols m with
      | some d =>
        rcases lowerLookup_some cols m d hl with ⟨hdm, hdl⟩
        have : (cols.any fun c => lowerStr c == m) = true :=
          List.any_eq_true.mpr ⟨d, hdm, beq_iff_eq.mpr hdl⟩
        rw [hm] at this
        cases this
      | none => exact ⟨c, hc, hdet, hcl⟩

/-! ### Claim theorems: C2 and C3 -/

/-- C2: a dataset with zero rows yields exactly status `"error"` with the
single message `"Dataset is empty"`, all later checks being short-circuited
(the dataset is returned untouched and no other message appears). -/
theorem c2_empty_dataset (df : DataFrame) (h : nRows df = 0) :
    validate df = ⟨df, "error", ["Dataset is empty"]⟩ := by
  unfold validate
  rw [if_pos h]

theorem c2_empty_dataset_witness :
    nRows [Column.mk "date" []] = 0 ∧
      validate [Column.mk "date" []] =
        ⟨[Column.mk "date" []], "error", ["Dataset is empty"]⟩ :=
  ⟨rfl, c2_empty_dataset [Column.mk "date" []] rfl⟩

/-- C3: column inference (used for the date and revenue roles) returns, for
the first candidate of the ordered candidate list that some column name
equals case-insensitively, a column realising that match; it returns
not-found exactly when no candidate is matched by any column name
(case-insensitive *exact* name equality, never substring matching); the
date and revenue candidate lists are the fixed ordered lists of the spec. -/
theorem c3_column_inference (cols cands : List String) :
    (∀ n, cands.find? (fun m => cols.any (fun c => lowerStr c == m)) = some n →
      ∃ c ∈ cols, detectColumn cols cands = some c ∧ lowerStr c = n)
    ∧ (detectColumn cols cands = none ↔ ∀ n ∈ cands, ∀ c ∈ cols, lowerStr c ≠ n)
    ∧ detectDateColumn cols = detectColumn cols ["date", "week", "week_start", "week_date"]
    ∧ REVENUE_COLUMN_NAMES = ["revenue", "sales", "total_revenue", "conversions"] :=
  ⟨fun n h => detectColumn_first cols cands n h, detectColumn_none_iff cols cands, rfl, rfl⟩

theorem c3_column_inference_witness :
    (["date", "week", "week_start", "week_date"].find?
        (fun m => ["WEEK", "Sales"].any (fun c => lowerStr c == m)) = some "week")
    ∧ (∃ c ∈ ["WEEK", "Sales"],
        detectColumn ["WEEK", "Sales"] ["date", "week", "week_start", "week_date"] = some c
        ∧ lowerStr c = "week") :=
  ⟨by decide, (c3_column_inference ["WEEK", "Sales"]
      ["date", "week", "week_start", "week_date"]).1 "week" (by decide)⟩

/-! ### Lemmas on substring containment and replacement -/

lemma isPrefixOf_eq_append (pat l : List Char) :
    pat.isPrefixOf l = true ↔ ∃ t, l = pat ++ t := by
  induction pat generalizing l with
  | nil => simp [List.isPrefixOf]
  | cons p ps ih =>
    cases l with
    | nil => simp [List.isPrefixOf]
    | cons c cs =>
      simp only [List.isPrefixOf, Bool.and_eq_true, beq_iff_eq, ih, List.cons_append,
        List.cons.injEq]
      constructor
      · rintro ⟨rfl, t, rfl⟩
        exact ⟨t, rfl, rfl⟩
      · rintro ⟨t, rfl, rfl⟩
        exact ⟨rfl, t, rfl⟩

lemma containsSub_iff (pat l : List Char) :
    containsSub pat l = true ↔ ∃ l1 l2, l = l1 ++ (pat ++ l2) := by
  induction l with
  | nil =>
    cases pat with
    | nil => simp [containsSub, List.isEmpty]
    | cons p ps =>
      simp only [containsSub, List.isEmpty]
      constructor
      · intro hc
        cases hc
      · rintro ⟨l1, l2, hl⟩
        simp at hl
  | cons c rest ih =>
    simp only [containsSub, Bool.or_eq_true, isPrefixOf_eq_append, ih]
    constructor
    · rintro (⟨t, ht⟩ | ⟨l1, l2, rfl⟩)
      · exact ⟨[], t, by simpa using ht⟩
      · exact ⟨c :: l1, l2, rfl⟩
    · rintro ⟨l1, l2, hl⟩
      cases l1 with
      | nil => exact Or.inl ⟨l2, by simpa using hl⟩
      | cons x l1 =>
        rcases List.cons.injEq .. ▸ hl with ⟨rfl, hrest⟩
        exact Or.inr ⟨l1, l2, hrest⟩

lemma isSuffixOf_eq_append (pat l : List Char) :
    pat.isSuffixOf l = true ↔ ∃ s, l = s ++ pat := by
  unfold List.isSuffixOf
  rw [isPrefixOf_eq_append]
  constructor
  · rintro ⟨t, ht⟩
    refine ⟨t.reverse, ?_⟩
    have := congrArg List.reverse ht
    simpa [List.reverse_append] using this
  · rintro ⟨s, rfl⟩
    exact ⟨s.reverse, by simp [List.reverse_append]⟩

lemma containsSub_false_not_append (pat l : List Char) (h : containsSub pat l = false) :
    ¬ ∃ l1 l2, l = l1 ++ (pat ++ l2) := by
  intro hex
  rw [← containsSub_iff] at hex
  rw [h] at hex
  cases hex

lemma replaceAllAux_of_not_contains (pat repl : List Char) (fuel : Nat) (l : List Char)
    (h : containsSub pat l = false) : replaceAllAux pat repl fuel l = l := by
  induction fuel generalizing l with
  | zero => cases l <;> rfl
  | succ fuel ih =>
    cases l with
    | nil => rfl
    | cons c rest =>
      unfold containsSub at h
      rcases Bool.or_eq_false_iff.mp h with ⟨hp, hr⟩
      unfold replaceAllAux
      rw [if_neg (by simp [hp])]
      rw [ih rest hr]

lemma replaceAll_of_not_contains (pat repl l : List Char)
    (h : containsSub pat l = false) : replaceAll pat repl l = l :=
  replaceAllAux_of_not_contains pat repl l.length l h

lemma checkMissingWeeksStep_status (s : VState) :
    (checkMissingWeeksStep s).status = s.status := by
  unfold checkMissingWeeksStep
  split
  · rfl
  · split
    · rfl
    · rfl

/-! ### Claim theorems: C10, C5, C4 -/

/-- C10: `get_detected_channels` qualifies a column iff its lowercased name
contains `"spend"` or the name ends with the case-sensitive `"_S"`; each
qualifying column contributes exactly one entry (in column order) with the
substring rule taking precedence over the suffix rule; the strip step
removes only the literal lowercase `"spend_"`/`"_spend"` substrings, so a
qualifying name containing neither (e.g. a non-lowercase spelling like
`"TV_Spend"`) is returned unmodified. -/
theorem c10_get_detected_channels (cols : List String) (c : String)
    (h1 : ¬ ∃ l1 l2, c.toList = l1 ++ ("spend_".toList ++ l2))
    (h2 : ¬ ∃ l1 l2, c.toList = l1 ++ ("_spend".toList ++ l2)) :
    (getDetectedChannels cols = cols.filterMap (fun n =>
        if containsSpend n then some (stripSpendName n)
        else if endsWithS n then some (n.dropRight 2)
        else none))
    ∧ (∀ n : String, containsSpend n = true ↔
        ∃ l1 l2, n.toList.map Char.toLower = l1 ++ ("spend".toList ++ l2))
    ∧ (∀ n : String, endsWithS n = true ↔ ∃ s, n.toList = s ++ "_S".toList)
    ∧ stripSpendName c = c := by
  refine ⟨?_, fun n => containsSub_iff _ _, fun n => isSuffixOf_eq_append _ _, ?_⟩
  · induction cols with
    | nil => rfl
    | cons n rest ih =>
      unfold getDetectedChannels
      rw [List.filterMap_cons]
      by_cases hs : containsSpend n = true
      · rw [if_pos hs, if_pos hs, ih]
      · rw [if_neg hs, if_neg hs]
        by_cases he : endsWithS n = true
        · rw [if_pos he, if_pos he, ih]
        · rw [if_neg he, if_neg he, ih]
  · have hc1 : containsSub "spend_".toList c.toList = false := by
      cases h : containsSub "spend_".toList c.toList with
      | false => rfl
      | true => exact absurd ((containsSub_iff _ _).mp h) h1
    have hc2 : containsSub "_spend".toList c.toList = false := by
      cases h : containsSub "_spend".toList c.toList with
      | false => rfl
      | true => exact absurd ((containsSub_iff _ _).mp h) h2
    unfold stripSpendName
    rw [replaceAll_of_not_contains _ _ _ hc1, replaceAll_of_not_contains _ _ _ hc2]
    cases c
    rfl

theorem c10_get_detected_channels_witness :
    (¬ ∃ l1 l2, "TV_Spend".toList = l1 ++ ("spend_".toList ++ l2))
    ∧ (¬ ∃ l1 l2, "TV_Spend".toList = l1 ++ ("_spend".toList ++ l2))
    ∧ getDetectedChannels ["date", "revenue", "spend_meta", "google_S", "TV_Spend"] =
        ["meta", "google", "TV_Spend"]
    ∧ stripSpendName "TV_Spend" = "TV_Spend" := by
  have h1 := containsSub_false_not_append "spend_".toList "TV_Spend".toList (by decide)
  have h2 := containsSub_false_not_append "_spend".toList "TV_Spend".toList (by decide)
  have h := c10_get_detected_channels
    ["date", "revenue", "spend_meta", "google_S", "TV_Spend"] "TV_Spend" h1 h2
  exact ⟨h1, h2, by rw [h.1]; decide, h.2.2.2⟩

/-- C5 counterexample: a dataset whose parsed date column holds two equal
timestamps (hence fewer than 2 distinct timestamps) does *not* skip the
weekly-cadence check: the check emits the non-weekly message (the source
tests `len(dates) < 2`, counting rows, not distinct values). -/
theorem c5_counterexample :
    (timestampsOf [Value.timestamp 0, Value.timestamp 0]).dedup.length < 2
    ∧ checkMissingWeeks (some [Value.timestamp 0, Value.timestamp 0]) =
        ["Data may not be weekly (median interval: 0 days)"]
    ∧ (validate [Column.mk "date" [Value.timestamp 0, Value.timestamp 0]]).messages =
        ["Dataset has 2 rows, minimum 52 required",
         "No revenue column detected. Expected: revenue, sales, conversions",
         "No spend columns detected (expected columns containing \x27spend\x27 or ending with \x27_S\x27)",
         "Found 1 duplicate dates",
         "Data may not be weekly (median interval: 0 days)"] := by
  refine ⟨by decide, by decide, by decide⟩

/-- C5 amended: the weekly-cadence/gap check is skipped entirely (no
message) when the parsed date column holds fewer than 2 *values* (rows,
counting duplicates and missing entries), not fewer than 2 distinct
timestamps; and the check never changes the status on any state. -/
theorem c5_skip_short_column (vals pv : List Value) (s : VState)
    (h : parseColVals vals = some pv) (hlen : pv.length < 2) :
    checkMissingWeeks (some vals) = []
    ∧ (checkMissingWeeksStep s).status = s.status := by
  constructor
  · simp only [checkMissingWeeks, h, if_pos hlen]
  · exact checkMissingWeeksStep_status s

theorem c5_skip_short_column_witness :
    parseColVals [Value.timestamp 3] = some [Value.timestamp 3]
    ∧ ([Value.timestamp 3] : List Value).length < 2
    ∧ checkMissingWeeks (some [Value.timestamp 3]) = []
    ∧ (checkMissingWeeksStep ⟨[], "valid", []⟩).status = "valid" :=
  ⟨by decide, by decide,
    (c5_skip_short_column [Value.timestamp 3] [Value.timestamp 3]
      ⟨[], "valid", []⟩ (by decide) (by decide)).1,
    (c5_skip_short_column [Value.timestamp 3] [Value.timestamp 3]
      ⟨[], "valid", []⟩ (by decide) (by decide)).2⟩

/-! ### The weekly-cadence check (C4) -/

lemma diffsOf_length (l : List Int) : (diffsOf l).length = l.length - 1 := by
  induction l with
  | nil => rfl
  | cons a rest ih =>
    cases rest with
    | nil => rfl
    | cons b rest2 =>
      simp only [diffsOf, List.length_cons] at ih ⊢
      omega

/-- The ascending-sorted timestamps of a parsed date column. -/
def sortedTsOf (pv : List Value) : List Int :=
  List.insertionSort (fun a b => a ≤ b) (timestampsOf pv)

/-- The integer day count of the median of the successive differences of
the sorted timestamps. -/
def medianDays (pv : List Value) : Int :=
  medianOf (diffsOf (sortedTsOf pv)) / nsPerDay

/-- The number of successive differences strictly greater than 10 days. -/
def gapCount (pv : List Value) : Nat :=
  ((diffsOf (sortedTsOf pv)).filter (fun d => 10 * nsPerDay < d)).length

/-- C4: on a parseable date column with at least 2 timestamps, the
missing-weeks check takes the median of the successive differences of the
ascending-sorted timestamps; a median under 5 or over 9 days yields exactly
the non-weekly message (with the integer day count) and no gap counting;
otherwise the gaps message is emitted iff some successive difference
strictly exceeds 10 days, reporting the count. -/
theorem c4_weekly_cadence (vals pv : List Value)
    (hp : parseColVals vals = some pv)
    (h2 : 2 ≤ (timestampsOf pv).length) :
    ((medianDays pv < 5 ∨ medianDays pv > 9) →
      checkMissingWeeks (some vals) =
        ["Data may not be weekly (median interval: " ++ toString (medianDays pv) ++ " days)"])
    ∧ (¬ (medianDays pv < 5 ∨ medianDays pv > 9) →
      checkMissingWeeks (some vals) =
        if 0 < gapCount pv then
          ["Found " ++ toString (gapCount pv) ++ " gaps in weekly data"]
        else []) := by
  have hlen : ¬ pv.length < 2 := by
    have := List.length_filterMap_le
      (fun v => match v with | Value.timestamp t => some t | _ => none) pv
    simp only [timestampsOf] at h2
    omega
  have hts : (sortedTsOf pv).length = (timestampsOf pv).length :=
    List.length_insertionSort _ _
  have hdl : (diffsOf (sortedTsOf pv)).length = (sortedTsOf pv).length - 1 :=
    diffsOf_length _
  obtain ⟨d0, drest, hcons⟩ :
      ∃ d0 drest, diffsOf (sortedTsOf pv) = d0 :: drest := by
    cases hd : diffsOf (sortedTsOf pv) with
    | nil =>
      rw [hd] at hdl
      simp only [List.length_nil] at hdl
      omega
    | cons a b => exact ⟨a, b, rfl⟩
  unfold sortedTsOf at hcons
  have hmw : checkMissingWeeks (some vals) =
      if medianOf (d0 :: drest) / nsPerDay < 5 ∨ medianOf (d0 :: drest) / nsPerDay > 9 then
        ["Data may not be weekly (median interval: " ++
          toString (medianOf (d0 :: drest) / nsPerDay) ++ " days)"]
      else
        if 0 < ((d0 :: drest).filter (fun d => 10 * nsPerDay < d)).length then
          ["Found " ++ toString (((d0 :: drest).filter (fun d => 10 * nsPerDay < d)).length) ++
            " gaps in weekly data"]
        else [] := by
    simp only [checkMissingWeeks, hp, if_neg hlen, hcons]
  have hmd : medianDays pv = medianOf (d0 :: drest) / nsPerDay := by
    unfold medianDays sortedTsOf
    rw [hcons]
  have hgc : gapCount pv = ((d0 :: drest).filter (fun d => 10 * nsPerDay < d)).length := by
    unfold gapCount sortedTsOf
    rw [hcons]
  constructor
  · intro hcond
    rw [hmw, if_pos (by rw [← hmd]; exact hcond), hmd]
  · intro hcond
    rw [hmw, if_neg (by rw [← hmd]; exact hcond), hgc]

theorem c4_weekly_cadence_witness :
    parseColVals
        [Value.timestamp 0, Value.timestamp (7 * nsPerDay), Value.timestamp (14 * nsPerDay)] =
      some [Value.timestamp 0, Value.timestamp (7 * nsPerDay), Value.timestamp (14 * nsPerDay)]
    ∧ 2 ≤ (timestampsOf
        [Value.timestamp 0, Value.timestamp (7 * nsPerDay), Value.timestamp (14 * nsPerDay)]).length
    ∧ checkMissingWeeks
        (some [Value.timestamp 0, Value.timestamp (7 * nsPerDay), Value.timestamp (14 * nsPerDay)]) =
      [] := by
  refine ⟨by decide, by decide, ?_⟩
  have h := (c4_weekly_cadence
    [Value.timestamp 0, Value.timestamp (7 * nsPerDay), Value.timestamp (14 * nsPerDay)]
    [Value.timestamp 0, Value.timestamp (7 * nsPerDay), Value.timestamp (14 * nsPerDay)]
    (by decide) (by decide)).2 (by decide)
  rw [h]
  decide

/-! ### Status machinery (C1, C8) -/

lemma status_cases (st : String) :
    st = "error" ∨ st = "warning" ∨ (st ≠ "error" ∧ st ≠ "warning" ∧ sev st = 0) := by
  by_cases h1 : st = "error"
  · exact Or.inl h1
  · by_cases h2 : st = "warning"
    · exact Or.inr (Or.inl h2)
    · refine Or.inr (Or.inr ⟨h1, h2, ?_⟩)
      unfold sev
      split
      · simp_all
      · simp_all
      · rfl

lemma sev_le_two (st : String) : sev st ≤ 2 := by
  unfold sev
  split <;> omega

lemma sev_maxStatus_left (a b : String) : sev a ≤ sev (maxStatus a b) := by
  unfold maxStatus
  by_cases h : sev b ≤ sev a
  · rw [if_pos h]
  · rw [if_neg h]
    omega

lemma guarded_eq_max (st : String) :
    (if st ≠ "error" then "warning" else st) = maxStatus st "warning" := by
  rcases status_cases st with rfl | rfl | ⟨h1, h2, h0⟩
  · decide
  · decide
  · rw [if_pos h1]
    unfold maxStatus
    rw [h0, if_neg (by decide)]

lemma error_eq_max (st : String) : "error" = maxStatus st "error" := by
  rcases status_cases st with rfl | rfl | ⟨h1, h2, h0⟩
  · decide
  · decide
  · unfold maxStatus
    rw [h0, if_neg (by decide)]

lemma guarded_error_iff (a b : String)
    (h : b = a ∨ b = (if a ≠ "error" then "warning" else a)) :
    b = "error" ↔ a = "error" := by
  rcases h with rfl | rfl
  · exact Iff.rfl
  · by_cases ha : a = "error"
    · rw [if_neg (not_not_intro ha)]
    · rw [if_pos ha]
      constructor
      · intro hw
        exact absurd hw (by decide)
      · intro h
        exact absurd h ha

lemma guarded_step_rel (a b : String)
    (h : b = a ∨ b = (if a ≠ "error" then "warning" else a)) :
    sev a ≤ sev b ∧ (b = a ∨ b = maxStatus a "warning" ∨ b = maxStatus a "error") := by
  rcases h with rfl | rfl
  · exact ⟨le_refl _, Or.inl rfl⟩
  · rw [guarded_eq_max]
    exact ⟨sev_maxStatus_left a "warning", Or.inr (Or.inl rfl)⟩

/-- The status set `{valid, warning, error}`. -/
def okStatus (st : String) : Prop :=
  st = "valid" ∨ st = "warning" ∨ st = "error"

lemma guarded_ok (a b : String) (ha : okStatus a)
    (h : b = a ∨ b = (if a ≠ "error" then "warning" else a)) : okStatus b := by
  rcases h with rfl | rfl
  · exact ha
  · by_cases h1 : a ≠ "error"
    · rw [if_pos h1]
      exact Or.inr (Or.inl rfl)
    · rw [if_neg h1]
      exact ha

/-! ### Per-check facts -/

lemma checkMinRows_df (s : VState) : (checkMinRows s).df = s.df := by
  unfold checkMinRows
  split <;> rfl

lemma checkMinRows_status (s : VState) :
    (checkMinRows s).status = s.status ∨ (checkMinRows s).status = "warning" := by
  unfold checkMinRows
  split
  · exact Or.inr rfl
  · exact Or.inl rfl

lemma checkRevenue_df (s : VState) : (checkRevenue s).df = s.df := by
  unfold checkRevenue
  split <;> rfl

lemma checkRevenue_status (s : VState) :
    (checkRevenue s).status = s.status ∨
      (checkRevenue s).status = (if s.status ≠ "error" then "warning" else s.status) := by
  unfold checkRevenue
  split
  · exact Or.inr rfl
  · exact Or.inl rfl

lemma checkNulls_df (s : VState) : (checkNulls s).df = s.df := by
  unfold checkNulls
  split <;> rfl

lemma checkNulls_status (s : VState) :
    (checkNulls s).status = s.status ∨
      (checkNulls s).status = (if s.status ≠ "error" then "warning" else s.status) := by
  unfold checkNulls
  split
  · exact Or.inl rfl
  · exact Or.inr rfl

lemma checkSpend_df (s : VState) : (checkSpend s).df = s.df := by
  unfold checkSpend
  split <;> rfl

lemma checkSpend_status (s : VState) :
    (checkSpend s).status = s.status ∨
      (checkSpend s).status = (if s.status ≠ "error" then "warning" else s.status) := by
  unfold checkSpend
  split
  · exact Or.inr rfl
  · exact Or.inl rfl

lemma checkDuplicates_df (s : VState) : (checkDuplicates s).df = s.df := by
  unfold checkDuplicates
  split
  · rfl
  · split
    · split
      · rfl
      · rfl
    · rfl

lemma checkDuplicates_status (s : VState) :
    (checkDuplicates s).status = s.status ∨
      (checkDuplicates s).status = (if s.status ≠ "error" then "warning" else s.status) := by
  unfold checkDuplicates
  split
  · exact Or.inl rfl
  · split
    · split
      · exact Or.inr rfl
      · exact Or.inl rfl
    · exact Or.inl rfl

lemma checkMissingWeeksStep_df (s : VState) : (checkMissingWeeksStep s).df = s.df := by
  unfold checkMissingWeeksStep
  split
  · rfl
  · split
    · rfl
    · rfl

lemma finalize_status (s : VState) : (finalize s).status = s.status := by
  unfold finalize
  split
  · rfl
  · rfl

lemma finalize_df (s : VState) : (finalize s).df = s.df := by
  unfold finalize
  split
  · rfl
  · rfl

lemma checkDateColumn_status (s : VState) :
    (checkDateColumn s).status = s.status ∨ (checkDateColumn s).status = "error" := by
  unfold checkDateColumn
  split
  · exact Or.inr rfl
  · split
    · exact Or.inr rfl
    · exact Or.inl rfl

lemma checkDateColumn_error_iff (s : VState) (hs : s.status ≠ "error") :
    (checkDateColumn s).status = "error" ↔
      (dateColOf s.df = none ∨
        ∃ dc, dateColOf s.df = some dc ∧ parseColVals ((getCol s.df dc).getD []) = none) := by
  unfold checkDateColumn
  cases hdc : dateColOf s.df with
  | none =>
    exact ⟨fun _ => Or.inl rfl, fun _ => rfl⟩
  | some dc =>
    dsimp only []
    cases hp : parseColVals ((getCol s.df dc).getD []) with
    | none =>
      exact ⟨fun _ => Or.inr ⟨dc, rfl, hp⟩, fun _ => rfl⟩
    | some pv =>
      constructor
      · intro h
        exact absurd h hs
      · rintro (h | ⟨dc2, hdc2, hp2⟩)
        · cases h
        · injection hdc2 with hdc2
          subst hdc2
          rw [hp2] at hp
          cases hp

lemma stepRel_warn_from_valid (b : String) (h : b = "valid" ∨ b = "warning") :
    sev "valid" ≤ sev b ∧
      (b = "valid" ∨ b = maxStatus "valid" "warning" ∨ b = maxStatus "valid" "error") := by
  rcases h with rfl | rfl
  · exact ⟨by decide, Or.inl rfl⟩
  · exact ⟨by decide, Or.inr (Or.inl (by decide))⟩

lemma stepRel_error (a b : String) (h : b = a ∨ b = "error") :
    sev a ≤ sev b ∧ (b = a ∨ b = maxStatus a "warning" ∨ b = maxStatus a "error") := by
  rcases h with rfl | rfl
  · exact ⟨le_refl _, Or.inl rfl⟩
  · exact ⟨sev_le_two a, Or.inr (Or.inr (error_eq_max a))⟩

lemma stepRel_eq (a b : String) (h : b = a) :
    sev a ≤ sev b ∧ (b = a ∨ b = maxStatus a "warning" ∨ b = maxStatus a "error") := by
  subst h
  exact ⟨le_refl _, Or.inl rfl⟩

/-- C8: within one `validate()` run, the running status never decreases in
severity under `error > warning > valid`: the trace of values taken by the
status variable is a chain in which every step either leaves the status
unchanged or is equivalent to `status = max(status, X)` for the check's
level `X` (`"warning"` for the guarded assignments, `"error"` for the plain
error overwrites), and the final status of `validate` is the last trace
entry. -/
theorem c8_monotone_severity (df : DataFrame) :
    (validate df).status = (statusTrace df).getLastD "valid"
    ∧ List.Chain' (fun a b => sev a ≤ sev b ∧
        (b = a ∨ b = maxStatus a "warning" ∨ b = maxStatus a "error")) (statusTrace df) := by
  by_cases h0 : nRows df = 0
  · unfold validate statusTrace
    rw [if_pos h0, if_pos h0]
    refine ⟨rfl, ?_⟩
    simp only [List.chain'_cons, List.chain'_singleton, and_true]
    exact ⟨by decide, Or.inr (Or.inr (by decide))⟩
  · unfold validate statusTrace
    rw [if_neg h0, if_neg h0]
    refine ⟨by rw [finalize_status]; simp [List.getLastD_cons], ?_⟩
    simp only [List.chain'_cons, List.chain'_singleton, and_true]
    exact ⟨stepRel_warn_from_valid _ (checkMinRows_status _),
      stepRel_error _ _ (checkDateColumn_status _),
      guarded_step_rel _ _ (checkRevenue_status _),
      guarded_step_rel _ _ (checkNulls_status _),
      guarded_step_rel _ _ (checkSpend_status _),
      guarded_step_rel _ _ (checkDuplicates_status _),
      stepRel_eq _ _ (checkMissingWeeksStep_status _)⟩

/-- C1: `validate` returns status `"error"` iff the dataset has a
structural defect (zero rows, no detected date column, or an unparseable
date column); in every case the status is one of `"valid"`, `"warning"`,
`"error"`, so every non-structural defect yields at most `"warning"`. -/
theorem c1_error_iff_structural (df : DataFrame) :
    ((validate df).status = "error" ↔ structuralDefect df)
    ∧ okStatus (validate df).status := by
  by_cases h0 : nRows df = 0
  · unfold validate
    rw [if_pos h0]
    exact ⟨⟨fun _ => Or.inl h0, fun _ => rfl⟩, Or.inr (Or.inr rfl)⟩
  · unfold validate
    rw [if_neg h0]
    generalize hg1 : checkMinRows ⟨df, "valid", []⟩ = s1
    have h1df : s1.df = df := by
      rw [← hg1]
      exact checkMinRows_df _
    have h1st : s1.status = "valid" ∨ s1.status = "warning" := by
      rw [← hg1]
      exact checkMinRows_status _
    have h1ne : s1.status ≠ "error" := by
      rcases h1st with h | h <;> rw [h] <;> decide
    generalize hg2 : checkDateColumn s1 = s2
    have h2iff : s2.status = "error" ↔
        (dateColOf df = none ∨
          ∃ dc, dateColOf df = some dc ∧ parseColVals ((getCol df dc).getD []) = none) := by
      rw [← hg2]
      have h := checkDateColumn_error_iff s1 h1ne
      rw [h1df] at h
      exact h
    have h2ok : okStatus s2.status := by
      rw [← hg2]
      rcases checkDateColumn_status s1 with h | h <;> rw [h]
      · rcases h1st with h1 | h1 <;> rw [h1]
        · exact Or.inl rfl
        · exact Or.inr (Or.inl rfl)
      · exact Or.inr (Or.inr rfl)
    generalize hg3 : checkRevenue s2 = s3
    have h3iff : s3.status = "error" ↔ s2.status = "error" := by
      rw [← hg3]
      exact guarded_error_iff _ _ (checkRevenue_status s2)
    have h3ok : okStatus s3.status := by
      rw [← hg3]
      exact guarded_ok _ _ h2ok (checkRevenue_status s2)
    generalize hg4 : checkNulls s3 = s4
    have h4iff : s4.status = "error" ↔ s3.status = "error" := by
      rw [← hg4]
      exact guarded_error_iff _ _ (checkNulls_status s3)
    have h4ok : okStatus s4.status := by
      rw [← hg4]
      exact guarded_ok _ _ h3ok (checkNulls_status s3)
    generalize hg5 : checkSpend s4 = s5
    have h5iff : s5.status = "error" ↔ s4.status = "error" := by
      rw [← hg5]
      exact guarded_error_iff _ _ (checkSpend_status s4)
    have h5ok : okStatus s5.status := by
      rw [← hg5]
      exact guarded_ok _ _ h4ok (checkSpend_status s4)
    generalize hg6 : checkDuplicates s5 = s6
    have h6iff : s6.status = "error" ↔ s5.status = "error" := by
      rw [← hg6]
      exact guarded_error_iff _ _ (checkDuplicates_status s5)
    have h6ok : okStatus s6.status := by
      rw [← hg6]
      exact guarded_ok _ _ h5ok (checkDuplicates_status s5)
    generalize hg7 : checkMissingWeeksStep s6 = s7
    have h7eq : s7.status = s6.status := by
      rw [← hg7]
      exact checkMissingWeeksStep_status s6
    constructor
    · rw [finalize_status, h7eq, h6iff, h5iff, h4iff, h3iff, h2iff]
      unfold structuralDefect
      constructor
      · exact fun h => Or.inr h
      · rintro (h | h)
        · exact absurd h h0
        · exact h
    · rw [finalize_status, h7eq]
      exact h6ok

/-! ### Dataset mutation lemmas (C9) -/

lemma colNames_setCol (df : DataFrame) (n : String) (vals : List Value) :
    colNames (setCol df n vals) = colNames df := by
  unfold colNames setCol
  rw [List.map_map]
  apply List.map_congr_left
  intro c _
  by_cases h : c.name = n
  · simp [h]
  · simp [h]

lemma dateColOf_setCol (df : DataFrame) (n : String) (vals : List Value) :
    dateColOf (setCol df n vals) = dateColOf df := by
  unfold dateColOf detectDateColumn
  rw [colNames_setCol]

lemma getCol_setCol_self (df : DataFrame) (n : String) (vals vs : List Value)
    (h : getCol df n = some vs) : getCol (setCol df n vals) n = some vals := by
  induction df with
  | nil => cases h
  | cons c rest ih =>
    by_cases hc : c.name = n
    · unfold getCol setCol
      simp only [List.map_cons, if_pos hc]
      rw [List.find?_cons_of_pos _ (by simp [hc])]
      rfl
    · unfold getCol at h
      rw [List.find?_cons_of_neg _ (by simp [hc])] at h
      unfold getCol setCol
      simp only [List.map_cons, if_neg hc]
      rw [List.find?_cons_of_neg _ (by simp [hc])]
      exact ih h

lemma getCol_setCol_ne (df : DataFrame) (n m : String) (vals : List Value)
    (h : m ≠ n) : getCol (setCol df n vals) m = getCol df m := by
  induction df with
  | nil => rfl
  | cons c rest ih =>
    by_cases hc : c.name = m
    · unfold getCol setCol
      simp only [List.map_cons]
      rw [if_neg (by rw [hc]; exact h)]
      rw [List.find?_cons_of_pos _ (by simp [hc]), List.find?_cons_of_pos _ (by simp [hc])]
    · unfold getCol setCol at ih ⊢
      simp only [List.map_cons]
      by_cases hcn : c.name = n
      · rw [if_pos hcn]
        rw [List.find?_cons_of_neg _ (by simp [hc]), List.find?_cons_of_neg _ (by simp [hc])]
        exact ih
      · rw [if_neg hcn]
        rw [List.find?_cons_of_neg _ (by simp [hc]), List.find?_cons_of_neg _ (by simp [hc])]
        exact ih

lemma nRows_setCol (df : DataFrame) (n : String) (vals vs : List Value)
    (h : getCol df n = some vs) (hlen : vals.length = vs.length) :
    nRows (setCol df n vals) = nRows df := by
  cases df with
  | nil => rfl
  | cons c rest =>
    by_cases hc : c.name = n
    · unfold getCol at h
      rw [List.find?_cons_of_pos _ (by simp [hc])] at h
      injection h with h
      unfold nRows setCol
      simp only [List.map_cons, if_pos hc]
      rw [hlen, ← h]
    · unfold nRows setCol
      simp only [List.map_cons, if_neg hc]

lemma mem_setCol_of_ne (df : DataFrame) (n : String) (vals : List Value)
    (c : Column) (hc : c ∈ df) (h : c.name ≠ n) : c ∈ setCol df n vals := by
  unfold setCol
  refine List.mem_map.mpr ⟨c, hc, ?_⟩
  rw [if_neg h]

lemma parseColVals_forall₂ (vals pv : List Value) (h : parseColVals vals = some pv) :
    List.Forall₂ (fun v w => toDatetime v = some w) vals pv := by
  induction vals generalizing pv with
  | nil =>
    injection h with h
    subst h
    exact List.Forall₂.nil
  | cons v rest ih =>
    unfold parseColVals at h
    cases hv : toDatetime v with
    | none =>
      rw [hv] at h
      cases h
    | some w =>
      rw [hv] at h
      cases hr : parseColVals rest with
      | none =>
        rw [hr] at h
        cases h
      | some ws =>
        rw [hr] at h
        injection h with h
        subst h
        exact List.Forall₂.cons hv (ih ws hr)

lemma parseColVals_length (vals pv : List Value) (h : parseColVals vals = some pv) :
    pv.length = vals.length :=
  (List.Forall₂.length_eq (parseColVals_forall₂ vals pv h)).symm

lemma checkDateColumn_df_none (s : VState) (h : dateColOf s.df = none) :
    (checkDateColumn s).df = s.df := by
  unfold checkDateColumn
  rw [h]

lemma checkDateColumn_df_fail (s : VState) (dc : String)
    (h : dateColOf s.df = some dc)
    (hp : parseColVals ((getCol s.df dc).getD []) = none) :
    (checkDateColumn s).df = s.df := by
  unfold checkDateColumn
  rw [h]
  dsimp only []
  rw [hp]

lemma checkDateColumn_df_ok (s : VState) (dc : String) (pv : List Value)
    (h : dateColOf s.df = some dc)
    (hp : parseColVals ((getCol s.df dc).getD []) = some pv) :
    (checkDateColumn s).df = setCol s.df dc pv := by
  unfold checkDateColumn
  rw [h]
  dsimp only []
  rw [hp]

lemma validate_df_eq (df : DataFrame) :
    (validate df).df =
      (if nRows df = 0 then df
       else (checkDateColumn (checkMinRows ⟨df, "valid", []⟩)).df) := by
  unfold validate
  by_cases h0 : nRows df = 0
  · rw [if_pos h0, if_pos h0]
  · rw [if_neg h0, if_neg h0]
    rw [finalize_df, checkMissingWeeksStep_df, checkDuplicates_df, checkSpend_df,
      checkNulls_df, checkRevenue_df]

/-- C9: `validate` mutates the dataset only by replacing the detected date
column's values with their cell-wise parsed timestamps when parsing
succeeds; the column names, the row count and the other columns are
untouched, and when no date column is detected, the date column does not
parse, or the dataset is empty, the dataset is returned entirely
unchanged. -/
theorem c9_frame_effect (df : DataFrame) :
    (nRows df = 0 → (validate df).df = df)
    ∧ ((dateColOf df = none ∨
         ∃ dc, dateColOf df = some dc ∧ parseColVals ((getCol df dc).getD []) = none) →
       (validate df).df = df)
    ∧ (∀ dc vals pv, nRows df ≠ 0 → dateColOf df = some dc → getCol df dc = some vals →
        parseColVals vals = some pv →
        (validate df).df = setCol df dc pv
        ∧ colNames (setCol df dc pv) = colNames df
        ∧ nRows (setCol df dc pv) = nRows df
        ∧ (∀ c ∈ df, c.name ≠ dc → c ∈ setCol df dc pv)
        ∧ getCol (setCol df dc pv) dc = some pv
        ∧ (∀ m, m ≠ dc → getCol (setCol df dc pv) m = getCol df m)
        ∧ List.Forall₂ (fun v w => toDatetime v = some w) vals pv) := by
  have hmdf : (checkMinRows ⟨df, "valid", []⟩).df = df := checkMinRows_df _
  refine ⟨?_, ?_, ?_⟩
  · intro h0
    rw [validate_df_eq, if_pos h0]
  · intro h
    rw [validate_df_eq]
    by_cases h0 : nRows df = 0
    · rw [if_pos h0]
    · rw [if_neg h0]
      rcases h with h | ⟨dc, hdc, hp⟩
      · rw [checkDateColumn_df_none _ (by rw [hmdf]; exact h), hmdf]
      · rw [checkDateColumn_df_fail _ dc (by rw [hmdf]; exact hdc) (by rw [hmdf]; exact hp),
          hmdf]
  · intro dc vals pv h0 hdc hvals hpv
    have hget : (getCol df dc).getD [] = vals := by rw [hvals]; rfl
    refine ⟨?_, colNames_setCol df dc pv, ?_, ?_, ?_, ?_, parseColVals_forall₂ vals pv hpv⟩
    · rw [validate_df_eq, if_neg h0]
      rw [checkDateColumn_df_ok _ dc pv (by rw [hmdf]; exact hdc)
        (by rw [hmdf, hget]; exact hpv), hmdf]
    · exact nRows_setCol df dc pv vals hvals
        ((parseColVals_length vals pv hpv))
    · exact fun c hc hne => mem_setCol_of_ne df dc pv c hc hne
    · exact getCol_setCol_self df dc pv vals hvals
    · exact fun m hm => getCol_setCol_ne df dc m pv hm

theorem c9_frame_effect_witness :
    (nRows [Column.mk "date" [Value.str "a" (some 5)],
            Column.mk "revenue" [Value.num 1]] ≠ 0)
    ∧ dateColOf [Column.mk "date" [Value.str "a" (some 5)],
            Column.mk "revenue" [Value.num 1]] = some "date"
    ∧ (validate [Column.mk "date" [Value.str "a" (some 5)],
            Column.mk "revenue" [Value.num 1]]).df =
        [Column.mk "date" [Value.timestamp 5], Column.mk "revenue" [Value.num 1]] := by
  refine ⟨by decide, by decide, ?_⟩
  have h := (c9_frame_effect [Column.mk "date" [Value.str "a" (some 5)],
      Column.mk "revenue" [Value.num 1]]).2.2 "date" [Value.str "a" (some 5)]
      [Value.timestamp 5] (by decide) (by decide) (by decide) (by decide)
  rw [h.1]
  decide

/-! ### Happy-path lemmas (C6) -/

lemma toDatetime_idem (v w : Value) (h : toDatetime v = some w) :
    toDatetime w = some w := by
  cases v with
  | null =>
    injection h with h
    subst h
    rfl
  | num n =>
    injection h with h
    subst h
    rfl
  | str s o =>
    cases o with
    | none => cases h
    | some t =>
      injection h with h
      subst h
      rfl
  | timestamp t =>
    injection h with h
    subst h
    rfl

lemma toDatetime_null_iff (v w : Value) (h : toDatetime v = some w) :
    w = Value.null ↔ v = Value.null := by
  cases v with
  | null =>
    injection h with h
    subst h
    simp
  | num n =>
    injection h with h
    subst h
    simp
  | str s o =>
    cases o with
    | none => cases h
    | some t =>
      injection h with h
      subst h
      simp
  | timestamp t =>
    injection h with h
    subst h
    simp

lemma toDatetime_shape (v w : Value) (h : toDatetime v = some w) :
    w = Value.null ∨ ∃ t, w = Value.timestamp t := by
  cases v with
  | null =>
    injection h with h
    subst h
    exact Or.inl rfl
  | num n =>
    injection h with h
    subst h
    exact Or.inr ⟨n, rfl⟩
  | str s o =>
    cases o with
    | none => cases h
    | some t =>
      injection h with h
      subst h
      exact Or.inr ⟨t, rfl⟩
  | timestamp t =>
    injection h with h
    subst h
    exact Or.inr ⟨t, rfl⟩

lemma parseColVals_of_self (pv : List Value) (h : ∀ w ∈ pv, toDatetime w = some w) :
    parseColVals pv = some pv := by
  induction pv with
  | nil => rfl
  | cons w rest ih =>
    unfold parseColVals
    rw [h w (List.mem_cons_self w rest), ih (fun x hx => h x (List.mem_cons_of_mem w hx))]

lemma forall₂_mem_right {R : Value → Value → Prop} (vals pv : List Value)
    (h : List.Forall₂ R vals pv) (w : Value) (hw : w ∈ pv) : ∃ v, R v w := by
  induction h with
  | nil => cases hw
  | cons hvw hrest ih =>
    rcases List.mem_cons.mp hw with rfl | hw2
    · exact ⟨_, hvw⟩
    · exact ih hw2

lemma parseColVals_idem (vals pv : List Value) (h : parseColVals vals = some pv) :
    parseColVals pv = some pv := by
  apply parseColVals_of_self
  intro w hw
  obtain ⟨v, hv⟩ := forall₂_mem_right vals pv (parseColVals_forall₂ vals pv h) w hw
  exact toDatetime_idem v w hv

lemma countNulls_forall₂ (vals pv : List Value)
    (hf : List.Forall₂ (fun v w => toDatetime v = some w) vals pv) :
    countNulls pv = countNulls vals := by
  induction hf with
  | nil => rfl
  | cons hvw hrest ih =>
    unfold countNulls at ih ⊢
    rw [List.countP_cons, List.countP_cons, ih]
    congr 1
    rename_i v w l1 l2
    by_cases hn : w = Value.null
    · rw [if_pos (by simpa using hn),
        if_pos (by simpa using (toDatetime_null_iff v w hvw).mp hn)]
    · rw [if_neg (by simpa using hn),
        if_neg (by simpa using fun hv => hn ((toDatetime_null_iff v w hvw).mpr hv))]

lemma countNulls_parse (vals pv : List Value) (h : parseColVals vals = some pv) :
    countNulls pv = countNulls vals :=
  countNulls_forall₂ vals pv (parseColVals_forall₂ vals pv h)

lemma timestampsOf_length_no_null (pv : List Value)
    (hnull : countNulls pv = 0)
    (hsh : ∀ w ∈ pv, w = Value.null ∨ ∃ t, w = Value.timestamp t) :
    (timestampsOf pv).length = pv.length := by
  induction pv with
  | nil => rfl
  | cons w rest ih =>
    have hn0 : countNulls rest = 0 ∧ w ≠ Value.null := by
      unfold countNulls at hnull ⊢
      rw [List.countP_cons] at hnull
      constructor
      · omega
      · intro hw
        rw [if_pos (by simpa using hw)] at hnull
        omega
    rcases hsh w (List.mem_cons_self w rest) with hw | ⟨t, hw⟩
    · exact absurd hw hn0.2
    · subst hw
      unfold timestampsOf at ih ⊢
      rw [List.filterMap_cons]
      dsimp only []
      rw [List.length_cons, List.length_cons,
        ih hn0.1 (fun x hx => hsh x (List.mem_cons_of_mem _ hx))]

lemma medianOf_const (l : List Int) (k : Int) (hne : l.length ≠ 0)
    (hall : ∀ d ∈ l, d = k) : medianOf l = k := by
  have hperm : List.Perm (List.insertionSort (fun a b => a ≤ b) l) l :=
    List.perm_insertionSort _ l
  have hlen : (List.insertionSort (fun a b => a ≤ b) l).length = l.length :=
    hperm.length_eq
  have hsall : ∀ d ∈ (List.insertionSort (fun a b => a ≤ b) l), d = k :=
    fun d hd => hall d (hperm.mem_iff.mp hd)
  unfold medianOf
  by_cases hpar : l.length % 2 = 1
  · rw [if_pos hpar]
    have hidx : l.length / 2 < (List.insertionSort (fun a b => a ≤ b) l).length := by
      rw [hlen]
      omega
    rw [List.getD_eq_getElem _ _ hidx]
    exact hsall _ (List.getElem_mem hidx)
  · rw [if_neg hpar]
    have hidx1 : l.length / 2 - 1 < (List.insertionSort (fun a b => a ≤ b) l).length := by
      rw [hlen]
      omega
    have hidx2 : l.length / 2 < (List.insertionSort (fun a b => a ≤ b) l).length := by
      rw [hlen]
      omega
    rw [List.getD_eq_getElem _ _ hidx1, List.getD_eq_getElem _ _ hidx2]
    rw [hsall _ (List.getElem_mem hidx1), hsall _ (List.getElem_mem hidx2)]
    omega

lemma checkMissingWeeks_weekly (pv : List Value)
    (hidem : parseColVals pv = some pv)
    (hts2 : 2 ≤ (timestampsOf pv).length)
    (hweek : ∀ d ∈ diffsOf (sortedTsOf pv), d = 7 * nsPerDay) :
    checkMissingWeeks (some pv) = [] := by
  have hlen2 : ¬ pv.length < 2 := by
    have := List.length_filterMap_le
      (fun v => match v with | Value.timestamp t => some t | _ => none) pv
    simp only [timestampsOf] at hts2
    omega
  have hsl : (sortedTsOf pv).length = (timestampsOf pv).length :=
    List.length_insertionSort _ _
  have hdl : (diffsOf (sortedTsOf pv)).length = (sortedTsOf pv).length - 1 :=
    diffsOf_length _
  obtain ⟨d0, drest, hcons⟩ :
      ∃ d0 drest, diffsOf (sortedTsOf pv) = d0 :: drest := by
    cases hd : diffsOf (sortedTsOf pv) with
    | nil =>
      rw [hd] at hdl
      simp only [List.length_nil] at hdl
      omega
    | cons a b => exact ⟨a, b, rfl⟩
  have hmed : medianOf (d0 :: drest) = 7 * nsPerDay := by
    rw [← hcons]
    exact medianOf_const _ _ (by rw [hdl]; omega) hweek
  have hgaps : (d0 :: drest).filter (fun d => 10 * nsPerDay < d) = [] := by
    rw [← hcons]
    refine List.filter_eq_nil_iff.mpr ?_
    intro d hd
    rw [hweek d hd]
    simp only [decide_eq_true_eq, not_lt]
    unfold nsPerDay
    omega
  unfold sortedTsOf at hcons
  simp only [checkMissingWeeks, hidem, if_neg hlen2, hcons, hmed, hgaps]
  rw [if_neg (by unfold nsPerDay; decide)]
  simp

/-! ### Step equations on literal states -/

lemma checkMinRows_noop (dfx : DataFrame) (st : String) (msgs : List String)
    (h : ¬ nRows dfx < REQUIRED_MIN_ROWS) :
    checkMinRows ⟨dfx, st, msgs⟩ = ⟨dfx, st, msgs⟩ := by
  unfold checkMinRows
  rw [if_neg h]

lemma checkDateColumn_ok (dfx : DataFrame) (st : String) (msgs : List String)
    (dc : String) (pv : List Value)
    (hdc : dateColOf dfx = some dc)
    (hp : parseColVals ((getCol dfx dc).getD []) = some pv) :
    checkDateColumn ⟨dfx, st, msgs⟩ = ⟨setCol dfx dc pv, st, msgs⟩ := by
  unfold checkDateColumn
  dsimp only []
  rw [hdc]
  dsimp only []
  rw [hp]

lemma checkRevenue_noop (dfx : DataFrame) (st : String) (msgs : List String)
    (h : detectColumn (colNames dfx) REVENUE_COLUMN_NAMES ≠ none) :
    checkRevenue ⟨dfx, st, msgs⟩ = ⟨dfx, st, msgs⟩ := by
  unfold checkRevenue
  dsimp only []
  cases hd : detectColumn (colNames dfx) REVENUE_COLUMN_NAMES with
  | none => exact absurd hd h
  | some r => rfl

lemma nullMsgsOf_eq_nil (df : DataFrame) (h : ∀ c ∈ df, countNulls c.values = 0) :
    nullMsgsOf df = [] := by
  refine List.filterMap_eq_nil_iff.mpr ?_
  intro c hc
  rw [h c hc, if_neg (lt_irrefl 0)]

lemma checkNulls_noop (dfx : DataFrame) (st : String) (msgs : List String)
    (h : nullMsgsOf dfx = []) :
    checkNulls ⟨dfx, st, msgs⟩ = ⟨dfx, st, msgs⟩ := by
  unfold checkNulls
  dsimp only []
  rw [if_pos h]

lemma checkSpend_noop (dfx : DataFrame) (st : String) (msgs : List String)
    (h : spendCols (colNames dfx) ≠ []) :
    checkSpend ⟨dfx, st, msgs⟩ = ⟨dfx, st, msgs⟩ := by
  unfold checkSpend
  dsimp only []
  rw [if_neg h]

lemma checkDuplicates_noop (dfx : DataFrame) (st : String) (msgs : List String)
    (dc : String) (hdc : dateColOf dfx = some dc) (hd : dupCountOf dfx dc = 0) :
    checkDuplicates ⟨dfx, st, msgs⟩ = ⟨dfx, st, msgs⟩ := by
  unfold checkDuplicates
  dsimp only []
  rw [hdc]
  dsimp only []
  by_cases hcont : (colNames dfx).contains dc
  · rw [if_pos hcont, hd, if_neg (lt_irrefl 0)]
  · rw [if_neg hcont]

lemma checkMissingWeeksStep_run (dfx : DataFrame) (st : String) (msgs : List String)
    (dc : String) (hdc : dateColOf dfx = some dc) (hs : st ≠ "error") :
    checkMissingWeeksStep ⟨dfx, st, msgs⟩ =
      ⟨dfx, st, msgs ++ checkMissingWeeks (getCol dfx dc)⟩ := by
  unfold checkMissingWeeksStep
  dsimp only []
  rw [hdc]
  dsimp only []
  rw [if_pos hs]

lemma finalize_nil (dfx : DataFrame) (st : String) :
    finalize ⟨dfx, st, []⟩ = ⟨dfx, st, ["Data validation passed"]⟩ := by
  unfold finalize
  dsimp only []
  rw [if_pos rfl]

lemma getCol_inv (df : DataFrame) (n : String) (vals : List Value)
    (h : getCol df n = some vals) : ∃ c ∈ df, c.name = n ∧ c.values = vals := by
  unfold getCol at h
  cases hf : df.find? (fun c => c.name = n) with
  | none =>
    rw [hf] at h
    cases h
  | some col =>
    rw [hf] at h
    injection h with h
    have hm := List.mem_of_find?_eq_some hf
    have hp := List.find?_some hf
    exact ⟨col, hm, by simpa using hp, h⟩

/-- C6: on a well-formed dataset with at least 52 rows, a detected and
fully parseable date column, a detected revenue column, no missing values,
at least one spend column, no duplicate parsed dates, and parsed
timestamps evenly spaced 7 days apart, `validate` returns status
`"valid"` with exactly the single message `"Data validation passed"`
(and the dataset with the date column parsed in place). -/
theorem c6_happy_path (df : DataFrame) (dc : String) (vals pv : List Value)
    (hWF : ∀ c ∈ df, c.values.length = nRows df)
    (hrows : REQUIRED_MIN_ROWS ≤ nRows df)
    (hdc : dateColOf df = some dc)
    (hvals : getCol df dc = some vals)
    (hpv : parseColVals vals = some pv)
    (hrev : detectColumn (colNames df) REVENUE_COLUMN_NAMES ≠ none)
    (hnull : ∀ c ∈ df, countNulls c.values = 0)
    (hspend : spendCols (colNames df) ≠ [])
    (hdup : countDups [] pv = 0)
    (hweek : ∀ d ∈ diffsOf (sortedTsOf pv), d = 7 * nsPerDay) :
    validate df = ⟨setCol df dc pv, "valid", ["Data validation passed"]⟩ := by
  obtain ⟨col, hcmem, hcname, hcvals⟩ := getCol_inv df dc vals hvals
  have hvlen : vals.length = nRows df := by
    rw [← hcvals]
    exact hWF col hcmem
  have hpvlen : pv.length = vals.length := parseColVals_length vals pv hpv
  have hge : 52 ≤ nRows df := hrows
  have h0 : ¬ nRows df = 0 := by omega
  have hnotlt : ¬ nRows df < REQUIRED_MIN_ROWS := by
    unfold REQUIRED_MIN_ROWS
    omega
  have hvnull : countNulls vals = 0 := by
    rw [← hcvals]
    exact hnull col hcmem
  have hpvnull : countNulls pv = 0 := by
    rw [countNulls_parse vals pv hpv]
    exact hvnull
  have hshape : ∀ w ∈ pv, w = Value.null ∨ ∃ t, w = Value.timestamp t := by
    intro w hw
    obtain ⟨v, hv⟩ := forall₂_mem_right vals pv (parseColVals_forall₂ vals pv hpv) w hw
    exact toDatetime_shape v w hv
  have htl : (timestampsOf pv).length = pv.length :=
    timestampsOf_length_no_null pv hpvnull hshape
  have hts2 : 2 ≤ (timestampsOf pv).length := by
    rw [htl, hpvlen, hvlen]
    omega
  have hnames : colNames (setCol df dc pv) = colNames df := colNames_setCol df dc pv
  have hdc2 : dateColOf (setCol df dc pv) = some dc := by
    rw [dateColOf_setCol]
    exact hdc
  unfold validate
  rw [if_neg h0]
  rw [checkMinRows_noop df "valid" [] hnotlt]
  rw [checkDateColumn_ok df "valid" [] dc pv hdc (by rw [hvals]; exact hpv)]
  rw [checkRevenue_noop (setCol df dc pv) "valid" [] (by rw [hnames]; exact hrev)]
  rw [checkNulls_noop (setCol df dc pv) "valid" [] ?hnn]
  case hnn =>
    apply nullMsgsOf_eq_nil
    intro c hc
    unfold setCol at hc
    obtain ⟨c2, hc2, hfc⟩ := List.mem_map.mp hc
    by_cases hn : c2.name = dc
    · rw [if_pos hn] at hfc
      rw [← hfc]
      exact hpvnull
    · rw [if_neg hn] at hfc
      rw [← hfc]
      exact hnull c2 hc2
  rw [checkSpend_noop (setCol df dc pv) "valid" [] (by rw [hnames]; exact hspend)]
  rw [checkDuplicates_noop (setCol df dc pv) "valid" [] dc hdc2 (by
    unfold dupCountOf
    rw [getCol_setCol_self df dc pv vals hvals]
    exact hdup)]
  rw [checkMissingWeeksStep_run (setCol df dc pv) "valid" [] dc hdc2 (by decide)]
  rw [getCol_setCol_self df dc pv vals hvals]
  rw [checkMissingWeeks_weekly pv (parseColVals_idem vals pv hpv) hts2 hweek]
  rw [List.append_nil]
  exact finalize_nil (setCol df dc pv) "valid"

/-- A 52-row weekly dataset with date, revenue and spend columns. -/
def happyDates : List Value :=
  (List.range 52).map (fun i => Value.timestamp ((i : Int) * (7 * nsPerDay)))

def happyNums : List Value :=
  (List.range 52).map (fun i => Value.num (i : Int))

def happyDf : DataFrame :=
  [⟨"date", happyDates⟩, ⟨"revenue", happyNums⟩, ⟨"tv_spend", happyNums⟩]

theorem c6_happy_path_witness :
    (∀ c ∈ happyDf, c.values.length = nRows happyDf)
    ∧ dateColOf happyDf = some "date"
    ∧ parseColVals happyDates = some happyDates
    ∧ validate happyDf =
        ⟨setCol happyDf "date" happyDates, "valid", ["Data validation passed"]⟩ := by
  refine ⟨by decide, by decide, by decide, ?_⟩
  exact c6_happy_path happyDf "date" happyDates happyDates
    (by decide) (by decide) (by decide) (by decide) (by decide)
    (by decide) (by decide) (by decide) (by decide) (by decide)

/-! ### Idempotence (C7) -/

lemma setCol_setCol (df : DataFrame) (n : String) (v w : List Value) :
    setCol (setCol df n v) n w = setCol df n w := by
  unfold setCol
  rw [List.map_map]
  apply List.map_congr_left
  intro c _
  by_cases h : c.name = n
  · simp [h]
  · simp [h]

lemma checkMinRows_eq (dfx : DataFrame) (st : String) (msgs : List String) :
    checkMinRows ⟨dfx, st, msgs⟩ =
      if nRows dfx < REQUIRED_MIN_ROWS then
        ⟨dfx, "warning", msgs ++
          ["Dataset has " ++ toString (nRows dfx) ++ " rows, minimum " ++
            toString REQUIRED_MIN_ROWS ++ " required"]⟩
      else ⟨dfx, st, msgs⟩ := by
  unfold checkMinRows
  dsimp only []

lemma getCol_isSome_of_mem (df : DataFrame) (n : String) (h : n ∈ colNames df) :
    ∃ vals, getCol df n = some vals := by
  unfold colNames at h
  obtain ⟨c, hc, hcn⟩ := List.mem_map.mp h
  unfold getCol
  cases hf : df.find? (fun x => x.name = n) with
  | some col => exact ⟨col.values, rfl⟩
  | none =>
    exfalso
    have hnp := List.find?_eq_none.mp hf c hc
    simp [hcn] at hnp

/-- C7: calling `validate` a second time on the dataset instance left by a
first call (whose date column may have been normalised to parsed
timestamps in place) reproduces the first call's outcome exactly: the same
status and the same ordered message list, with the re-parse a no-op — the
messages are rebuilt from scratch each call, never accumulated. -/
theorem c7_idempotent (df : DataFrame) :
    validate ((validate df).df) = validate df := by
  by_cases h0 : nRows df = 0
  · have hdf : (validate df).df = df := by
      rw [validate_df_eq, if_pos h0]
    rw [hdf]
  · cases hdc : dateColOf df with
    | none =>
      have hdf : (validate df).df = df := by
        rw [validate_df_eq, if_neg h0,
          checkDateColumn_df_none _ (by rw [checkMinRows_df]; exact hdc), checkMinRows_df]
      rw [hdf]
    | some dc =>
      cases hp : parseColVals ((getCol df dc).getD []) with
      | none =>
        have hdf : (validate df).df = df := by
          rw [validate_df_eq, if_neg h0,
            checkDateColumn_df_fail _ dc (by rw [checkMinRows_df]; exact hdc)
              (by rw [checkMinRows_df]; exact hp),
            checkMinRows_df]
        rw [hdf]
      | some pv =>
        have hmem : dc ∈ colNames df := by
          unfold dateColOf detectDateColumn at hdc
          exact (detectColumn_some _ _ _ hdc).1
        obtain ⟨vals, hvals⟩ := getCol_isSome_of_mem df dc hmem
        have hget : (getCol df dc).getD [] = vals := by
          rw [hvals]
          rfl
        have hpv : parseColVals vals = some pv := by
          rw [← hget]
          exact hp
        have hdf : (validate df).df = setCol df dc pv := by
          rw [validate_df_eq, if_neg h0,
            checkDateColumn_df_ok _ dc pv (by rw [checkMinRows_df]; exact hdc)
              (by rw [checkMinRows_df]; exact hp),
            checkMinRows_df]
        have hlen : pv.length = vals.length := parseColVals_length vals pv hpv
        have hnr : nRows (setCol df dc pv) = nRows df :=
          nRows_setCol df dc pv vals hvals hlen
        have hdc1 : dateColOf (setCol df dc pv) = some dc := by
          rw [dateColOf_setCol]
          exact hdc
        have hget1 : getCol (setCol df dc pv) dc = some pv :=
          getCol_setCol_self df dc pv vals hvals
        have hidem : parseColVals pv = some pv := parseColVals_idem vals pv hpv
        have hss : setCol (setCol df dc pv) dc pv = setCol df dc pv :=
          setCol_setCol df dc pv pv
        rw [hdf]
        unfold validate
        rw [if_neg (show ¬ nRows (setCol df dc pv) = 0 by rw [hnr]; exact h0),
          if_neg h0]
        rw [checkMinRows_eq df "valid" [], checkMinRows_eq (setCol df dc pv) "valid" [],
          hnr]
        by_cases hlt : nRows df < REQUIRED_MIN_ROWS
        · rw [if_pos hlt, if_pos hlt]
          rw [checkDateColumn_ok df _ _ dc pv hdc hp,
            checkDateColumn_ok (setCol df dc pv) _ _ dc pv hdc1
              (by rw [hget1]; exact hidem),
            hss]
        · rw [if_neg hlt, if_neg hlt]
          rw [checkDateColumn_ok df _ _ dc pv hdc hp,
            checkDateColumn_ok (setCol df dc pv) _ _ dc pv hdc1
              (by rw [hget1]; exact hidem),
            hss]

end DataValidatorModel
